import Mathlib

/-!
# Outbound-message pool (outputmessage.cpp)

A shallow embedding of `OutputMessageAllocator` (the pooled allocator for
`OutputMessage` blocks) and of `OutputMessagePool` (the autosend registry and
its self re-arming flush task), followed by the properties proved about them.

Conventions of the embedding:

* a `Protocol_ptr` is the identity of a connection, a natural number;
* an `OutputMessage_ptr` is a shared pointer to a message: `none` is the null
  pointer (an empty pending buffer), `some m` points at message `m`;
* an `OutputMessage*` raw block is a natural number, `0` being `nullptr`;
* `std::vector` is a `List` (index `0` first, `back()` last);
* the calls made on the external collaborators (`Protocol`, the global
  scheduler, the heap) are recorded in the state, in call order.
-/

namespace OutputMessage

/-! ## Constants -/

/-- Line 29: `const uint16_t OUTPUTMESSAGE_FREE_LIST_CAPACITY = 2048;` -/
def OUTPUTMESSAGE_FREE_LIST_CAPACITY : Nat := 2048

/-- Line 30: `const std::chrono::milliseconds OUTPUTMESSAGE_AUTOSEND_DELAY {10};`
(the value of `.count()`, in milliseconds). -/
def OUTPUTMESSAGE_AUTOSEND_DELAY : Nat := 10

/-! ## OutputMessageAllocator -/

/-- A raw `OutputMessage*`; `0` is `nullptr`. -/
abbrev Block := Nat

/-- The null pointer. -/
def nullptr : Block := 0

/-- The calls made on the global heap. -/
inductive HeapCall where
  /-- The call `operator new(size)` that returned block `p`. -/
  | operatorNew (size : Nat) (p : Block)
  /-- The call `operator delete(p)`. -/
  | operatorDelete (p : Block)
  deriving DecidableEq, Repr

/-- Modelled from the spec: the type `FreeList`, a
`boost::lockfree::stack<OutputMessage*, capacity<2048>>`, is a library type
whose code is not part of the sources. Its sequential behaviour is that of a
bounded LIFO stack of blocks: the head of the list is the top of the stack. -/
abbrev FreeList := List Block

/-- Modelled from the spec: `FreeList::pop(p)`. On an empty stack it returns
`false` and leaves the stack alone; otherwise it removes the top block and
hands it out. -/
def FreeList.pop : FreeList → Option (Block × FreeList)
  | [] => none
  | p :: rest => some (p, rest)

/-- Modelled from the spec: `FreeList::bounded_push(p)`. The push is rejected
(`false`, stack unchanged) when the stack already holds `capacity` blocks;
otherwise `p` becomes the new top. -/
def FreeList.bounded_push (capacity : Nat) (fl : FreeList) (p : Block) : Bool × FreeList :=
  if fl.length < capacity then (true, p :: fl) else (false, fl)

/-- The state the allocator works on: the function-local static free list of
`getFreeList()` (lines 84-87) and the heap calls that returned so far, oldest
first. -/
structure AllocatorState where
  freeList : FreeList
  heapCalls : List HeapCall
  deriving DecidableEq, Repr

/-- The exception `std::bad_alloc`: thrown at line 53, and by `operator new`
at line 58 when the heap is exhausted. -/
inductive Exception where
  | bad_alloc
  deriving DecidableEq, Repr

/-- Lines 51-61, `OutputMessageAllocator::allocate(n)`.

`sizeofOutputMessage` is `sizeof(OutputMessage)`, a constant of the absent
header. `heap` is what `operator new` does if the call reaches it:
`some heapBlock` when the heap hands out the block `heapBlock`, `none` when the
heap is exhausted, in which case `operator new` throws `std::bad_alloc` and
the exception escapes `allocate`. The result is what the call returns (the
block, or the exception thrown) and the state it leaves. -/
def allocate (sizeofOutputMessage : Nat) (heap : Option Block) (s : AllocatorState) (n : Nat) :
    Except Exception Block × AllocatorState :=
  if n ≠ 1 then
    (Except.error Exception.bad_alloc, s)
  else
    match FreeList.pop s.freeList with
    | some (p, rest) => (Except.ok p, { s with freeList := rest })
    | none =>
      match heap with
      | some heapBlock =>
        (Except.ok heapBlock,
          { s with
            heapCalls := s.heapCalls ++ [HeapCall.operatorNew sizeofOutputMessage heapBlock] })
      | none => (Except.error Exception.bad_alloc, s)

/-- Lines 63-71, `OutputMessageAllocator::deallocate(p, n)`. The function
returns `void` and has no throwing path, so it is total on states. -/
def deallocate (s : AllocatorState) (p : Block) (n : Nat) : AllocatorState :=
  if n ≠ 1 ∨ p = nullptr then
    s
  else
    match FreeList.bounded_push OUTPUTMESSAGE_FREE_LIST_CAPACITY s.freeList p with
    | (true, fl) => { s with freeList := fl }
    | (false, fl) => { freeList := fl, heapCalls := s.heapCalls ++ [HeapCall.operatorDelete p] }

/-! ## OutputMessagePool -/

/-- A `Protocol_ptr`: the identity of a connection. -/
abbrev Protocol_ptr := Nat

/-- A non-null message. -/
abbrev Message := Nat

/-- An `OutputMessage_ptr`: `none` is the null shared pointer. -/
abbrev OutputMessage_ptr := Option Message

/-- The calls made on the `Protocol` collaborators. -/
inductive ProtocolCall where
  /-- The call `protocol->getCurrentBuffer()`. -/
  | getCurrentBuffer (protocol : Protocol_ptr)
  /-- The call `protocol->send(msg)` with a non-null `msg`. -/
  | send (protocol : Protocol_ptr) (msg : Message)
  deriving DecidableEq, Repr

/-- The pool and the collaborators it talks to.

* `bufferedProtocols`: the registry, a `std::vector<Protocol_ptr>`;
* `scheduler`: the events of `g_scheduler` that are armed flush tasks, each
  with its delay in milliseconds, oldest first;
* `currentBuffer`: what `getCurrentBuffer()` of each connection refers to;
* `calls`: the calls made on the connections so far, oldest first. -/
structure Pool where
  bufferedProtocols : List Protocol_ptr
  scheduler : List Nat
  currentBuffer : Protocol_ptr → OutputMessage_ptr
  calls : List ProtocolCall

/-- Lines 90-94, `scheduleSendAll`: one task running `sendAll` is added to the
scheduler with delay `OUTPUTMESSAGE_AUTOSEND_DELAY.count()`. -/
def scheduleSendAll (s : Pool) : Pool :=
  { s with scheduler := s.scheduler ++ [OUTPUTMESSAGE_AUTOSEND_DELAY] }

/-- Modelled from the spec: `send` takes over ownership of the buffer it is
given (`std::move(msg)` at line 102, on the reference returned by
`getCurrentBuffer()`), so the connection's pending buffer is null after the
call. `Protocol` itself is declared in an absent header. -/
def moveBuffer (currentBuffer : Protocol_ptr → OutputMessage_ptr) (protocol : Protocol_ptr) :
    Protocol_ptr → OutputMessage_ptr :=
  fun q => if q = protocol then none else currentBuffer q

/-- Lines 99-104, the loop of `sendAll` over the entries still to visit. -/
def sendAllLoop : List Protocol_ptr → (Protocol_ptr → OutputMessage_ptr) → List ProtocolCall →
    (Protocol_ptr → OutputMessage_ptr) × List ProtocolCall
  | [], currentBuffer, calls => (currentBuffer, calls)
  | protocol :: rest, currentBuffer, calls =>
    match currentBuffer protocol with
    | some msg =>
      sendAllLoop rest (moveBuffer currentBuffer protocol)
        (calls ++ [ProtocolCall.getCurrentBuffer protocol, ProtocolCall.send protocol msg])
    | none =>
      sendAllLoop rest currentBuffer (calls ++ [ProtocolCall.getCurrentBuffer protocol])

/-- Lines 96-109, `OutputMessagePool::sendAll`. -/
def sendAll (s : Pool) : Pool :=
  let r := sendAllLoop s.bufferedProtocols s.currentBuffer s.calls
  let s1 : Pool := { s with currentBuffer := r.1, calls := r.2 }
  if s1.bufferedProtocols.isEmpty then s1 else scheduleSendAll s1

/-- Lines 111-118, `OutputMessagePool::addProtocolToAutosend`. -/
def addProtocolToAutosend (s : Pool) (protocol : Protocol_ptr) : Pool :=
  let s1 := if s.bufferedProtocols.isEmpty then scheduleSendAll s else s
  { s1 with bufferedProtocols := s1.bufferedProtocols ++ [protocol] }

/-- Line 125, `std::swap(*it, bufferedProtocols.back())` on a vector, `it`
being the position of an entry. -/
def swapWithBack (v : List Protocol_ptr) (it : Nat) : List Protocol_ptr :=
  match v[it]?, v.getLast? with
  | some x, some back => (v.set it back).set (v.length - 1) x
  | _, _ => v

/-- Lines 120-128, `OutputMessagePool::removeProtocolFromAutosend`.
`List.indexOf` is `std::find`: the position of the first entry equal to
`protocol`, or the length (`end()`) when there is none. -/
def removeProtocolFromAutosend (s : Pool) (protocol : Protocol_ptr) : Pool :=
  let it := s.bufferedProtocols.indexOf protocol
  if it ≠ s.bufferedProtocols.length then
    { s with bufferedProtocols := (swapWithBack s.bufferedProtocols it).dropLast }
  else
    s

/-- The scheduler running its oldest armed flush task: the task is consumed
and `sendAll` runs. Nothing happens (`none`) when no task is armed. -/
def fireFlushTask (s : Pool) : Option Pool :=
  match s.scheduler with
  | [] => none
  | _ :: rest => some (sendAll { s with scheduler := rest })

/-- The operations of a run of the pool. -/
inductive Operation where
  | addProtocolToAutosend (protocol : Protocol_ptr)
  | removeProtocolFromAutosend (protocol : Protocol_ptr)
  | fireFlushTask
  deriving DecidableEq, Repr

/-- One operation of a run; `none` when a firing is asked for while no task is
armed. -/
def applyOperation (s : Pool) : Operation → Option Pool
  | Operation.addProtocolToAutosend p => some (addProtocolToAutosend s p)
  | Operation.removeProtocolFromAutosend p => some (removeProtocolFromAutosend s p)
  | Operation.fireFlushTask => fireFlushTask s

/-- A run: the operations applied from left to right. -/
def run (s : Pool) : List Operation → Option Pool
  | [] => some s
  | op :: ops =>
    match applyOperation s op with
    | some s1 => run s1 ops
    | none => none

/-- The initial state of the pool: empty registry, no armed task, no call made
yet; the pending buffers of the connections are arbitrary. -/
def initialPool (currentBuffer : Protocol_ptr → OutputMessage_ptr) : Pool :=
  { bufferedProtocols := [], scheduler := [], currentBuffer := currentBuffer, calls := [] }

/-- The connections on which `send` was called, in call order. -/
def sentOn : List ProtocolCall → List Protocol_ptr
  | [] => []
  | ProtocolCall.send p _ :: rest => p :: sentOn rest
  | ProtocolCall.getCurrentBuffer _ :: rest => sentOn rest

/-- The connections asked for their pending buffer, in call order. -/
def visited : List ProtocolCall → List Protocol_ptr
  | [] => []
  | ProtocolCall.getCurrentBuffer p :: rest => p :: visited rest
  | ProtocolCall.send _ _ :: rest => visited rest

/-- The calls one flush pass makes on a connection whose pending buffer is
`buffer`: the buffer is asked for, and sent when it is non-null. -/
def passCallsOn (protocol : Protocol_ptr) (buffer : OutputMessage_ptr) : List ProtocolCall :=
  match buffer with
  | some msg => [ProtocolCall.getCurrentBuffer protocol, ProtocolCall.send protocol msg]
  | none => [ProtocolCall.getCurrentBuffer protocol]

/-- The calls expected of a flush pass over the given entries when the pending
buffers at the start of the pass are `currentBuffer`. -/
def passCallsOver (currentBuffer : Protocol_ptr → OutputMessage_ptr) :
    List Protocol_ptr → List ProtocolCall
  | [] => []
  | p :: rest => passCallsOn p (currentBuffer p) ++ passCallsOver currentBuffer rest

/-- The calls made on the connections during the flush pass run from `s`:
what `sendAll` adds to the calls already made. -/
def flushCalls (s : Pool) : List ProtocolCall :=
  (sendAll s).calls.drop s.calls.length

/-- The state of the scenario of the specification: connections 1, 2 and 3
registered in that order, one flush task armed, and only connection 2 with a
pending buffer (message 77). -/
def scenarioPool : Pool :=
  { bufferedProtocols := [1, 2, 3]
    scheduler := [OUTPUTMESSAGE_AUTOSEND_DELAY]
    currentBuffer := fun p => if p = 2 then some 77 else none
    calls := [] }

/-! ## Runs of the allocator -/

/-- A call on the allocator. `heap` is what `operator new` does if the
`allocate` call reaches it: it hands out a block, or throws (`none`). -/
inductive AllocatorCall where
  | allocate (n : Nat) (heap : Option Block)
  | deallocate (p : Block) (n : Nat)
  deriving DecidableEq, Repr

/-- How a call ends: `allocate` returns a block or throws, `deallocate`
returns nothing (`void`). -/
abbrev CallResult := Except Exception (Option Block)

/-- One call on the allocator: how it ends and the state it leaves. -/
def applyCall (sizeofOutputMessage : Nat) (s : AllocatorState) :
    AllocatorCall → CallResult × AllocatorState
  | AllocatorCall.allocate n heap =>
    match allocate sizeofOutputMessage heap s n with
    | (Except.ok p, s1) => (Except.ok (some p), s1)
    | (Except.error e, s1) => (Except.error e, s1)
  | AllocatorCall.deallocate p n => (Except.ok none, deallocate s p n)

/-- A sequence of calls, each made whatever the earlier ones returned or
threw: every call with how it ended, and the final state. -/
def runCalls (sizeofOutputMessage : Nat) :
    AllocatorState → List AllocatorCall → List (AllocatorCall × CallResult) × AllocatorState
  | s, [] => ([], s)
  | s, call :: calls =>
    let r := applyCall sizeofOutputMessage s call
    let rest := runCalls sizeofOutputMessage r.2 calls
    ((call, r.1) :: rest.1, rest.2)

/-- The allocator before its first call: empty free list, no heap call. -/
def initialAllocator : AllocatorState :=
  { freeList := [], heapCalls := [] }

/-- The allocator state together with the books kept on a run: the blocks
held by the callers (`live`), every block `allocate` returned (`allocated`) and
every block passed to `deallocate` (`deallocated`), latest first. -/
structure Ledger where
  state : AllocatorState
  live : List Block
  allocated : List Block
  deallocated : List Block
  deriving DecidableEq, Repr

/-- The books at the start: nothing allocated yet. -/
def Ledger.initial : Ledger :=
  { state := initialAllocator, live := [], allocated := [], deallocated := [] }

/-- One call, with the books updated: a block returned by `allocate` becomes
live, a block passed to `deallocate` stops being live. -/
def Ledger.step (sizeofOutputMessage : Nat) (t : Ledger) : AllocatorCall → Ledger
  | AllocatorCall.allocate n heap =>
    match allocate sizeofOutputMessage heap t.state n with
    | (Except.ok p, s1) =>
      { state := s1, live := p :: t.live, allocated := p :: t.allocated,
        deallocated := t.deallocated }
    | (Except.error _, s1) => { t with state := s1 }
  | AllocatorCall.deallocate p n =>
    { state := deallocate t.state p n, live := t.live.erase p, allocated := t.allocated,
      deallocated := p :: t.deallocated }

/-- A run with the books kept. -/
def Ledger.run (sizeofOutputMessage : Nat) : Ledger → List AllocatorCall → Ledger
  | t, [] => t
  | t, call :: calls => Ledger.run sizeofOutputMessage (t.step sizeofOutputMessage call) calls

/-- The discipline of a call in a run of `allocate(1)` and `deallocate(p, 1)`:
`deallocate` is given a live block, and when `allocate` has to go to the heap
(the free list is empty) a block the heap hands out is non-null (`operator new`
never returns null) and not live. -/
def disciplinedCall (t : Ledger) : AllocatorCall → Bool
  | AllocatorCall.allocate n heap =>
    decide (n = 1) &&
      (!t.state.freeList.isEmpty ||
        match heap with
        | some heapBlock => decide (heapBlock ≠ nullptr) && !t.live.contains heapBlock
        | none => true)
  | AllocatorCall.deallocate p n => decide (n = 1) && t.live.contains p

/-- The discipline holds at every call of the run. -/
def disciplinedRun (sizeofOutputMessage : Nat) : Ledger → List AllocatorCall → Bool
  | _, [] => true
  | t, call :: calls =>
    disciplinedCall t call &&
      disciplinedRun sizeofOutputMessage (t.step sizeofOutputMessage call) calls

/-- The allocator state together with two histories of a run, latest first:
`freed`, the blocks freed (`deallocate(p, 1)` with `p` non-null) and not
returned by `allocate` since; `kept`, those of them that the call did not
release to the heap. Both are read off the calls, their results and the heap
calls, not off the free list. -/
structure ReuseHistory where
  state : AllocatorState
  freed : List Block
  kept : List Block
  deriving DecidableEq, Repr

/-- The histories at the start. -/
def ReuseHistory.initial : ReuseHistory :=
  { state := initialAllocator, freed := [], kept := [] }

/-- One call, with the histories updated. -/
def ReuseHistory.step (sizeofOutputMessage : Nat) (t : ReuseHistory) :
    AllocatorCall → ReuseHistory
  | AllocatorCall.allocate n heap =>
    match allocate sizeofOutputMessage heap t.state n with
    | (Except.ok p, s1) =>
      { state := s1, freed := t.freed.erase p,
        kept := if s1.heapCalls = t.state.heapCalls then t.kept.erase p else t.kept }
    | (Except.error _, s1) => { t with state := s1 }
  | AllocatorCall.deallocate p n =>
    let s1 := deallocate t.state p n
    if n = 1 ∧ p ≠ nullptr then
      { state := s1, freed := p :: t.freed,
        kept := if s1.heapCalls = t.state.heapCalls then p :: t.kept else t.kept }
    else
      { t with state := s1 }

/-- A run with the histories kept. -/
def ReuseHistory.run (sizeofOutputMessage : Nat) :
    ReuseHistory → List AllocatorCall → ReuseHistory
  | t, [] => t
  | t, call :: calls =>
    ReuseHistory.run sizeofOutputMessage (t.step sizeofOutputMessage call) calls

/-- The calls `deallocate(p, 1)` for the blocks of a list, in list order. -/
def deallocateEach (blocks : List Block) : List AllocatorCall :=
  blocks.map (fun p => AllocatorCall.deallocate p 1)

/-- The run that fills the free list and frees one block more: blocks 2048
down to 1 are freed, then block 3000. -/
def overflowRun : List AllocatorCall :=
  deallocateEach (List.range' 1 2048).reverse ++ [AllocatorCall.deallocate 3000 1]

/-! ## The allocator as a C++ allocator type -/

/-- The types an allocator can be bound to: the message type and any other
type, told apart by a number. -/
inductive ElementType where
  | OutputMessage
  | other (id : Nat)
  deriving DecidableEq, Repr

/-- The allocator types `rebind` can name. `LockfreePoolingAllocator` is
declared in the absent header `lockfree.h`. -/
inductive AllocatorType where
  | OutputMessageAllocator
  | LockfreePoolingAllocator (U : ElementType) (capacity : Nat)
  deriving DecidableEq, Repr

/-- The library trait `std::is_same<U, V>::value`. -/
def is_same (U V : ElementType) : Bool :=
  decide (U = V)

/-- The library trait `std::conditional<b, T, F>::type`. -/
def conditional (b : Bool) (T F : AllocatorType) : AllocatorType :=
  match b with
  | true => T
  | false => F

/-- Lines 42-49, `OutputMessageAllocator::rebind<U>::other`. -/
def rebind (U : ElementType) : AllocatorType :=
  conditional (is_same U ElementType.OutputMessage) AllocatorType.OutputMessageAllocator
    (AllocatorType.LockfreePoolingAllocator U OUTPUTMESSAGE_FREE_LIST_CAPACITY)

/-- An instance of `OutputMessageAllocator` (lines 32-88): the class has no
data member. -/
structure OutputMessageAllocator where
  mk ::
  deriving DecidableEq, Repr

/-- Lines 73-75, `OutputMessageAllocator::operator==`. -/
def OutputMessageAllocator.operatorEq (_a _b : OutputMessageAllocator) : Bool :=
  true

/-- Lines 77-79, `OutputMessageAllocator::operator!=`. -/
def OutputMessageAllocator.operatorNe (_a _b : OutputMessageAllocator) : Bool :=
  false

/-- Modelled from the spec: `allocate` of the generic pooled allocator
`LockfreePoolingAllocator<U, capacity>`, whose header `lockfree.h` is absent.
It supports only a count of 1 (any other count is an allocation failure), pops
one block from its free list and, on an empty list, falls back to a heap
allocation of `sizeof(U)` bytes, which throws `std::bad_alloc` when the heap
is exhausted (`heap` is `none`). `s` is the state of its own free list. -/
def LockfreePoolingAllocator.allocate (sizeofU : Nat) (heap : Option Block)
    (s : AllocatorState) (n : Nat) : Except Exception Block × AllocatorState :=
  if n ≠ 1 then
    (Except.error Exception.bad_alloc, s)
  else
    match FreeList.pop s.freeList with
    | some (p, rest) => (Except.ok p, { s with freeList := rest })
    | none =>
      match heap with
      | some heapBlock =>
        (Except.ok heapBlock,
          { s with heapCalls := s.heapCalls ++ [HeapCall.operatorNew sizeofU heapBlock] })
      | none => (Except.error Exception.bad_alloc, s)

/-- The call `allocate(n)` on an allocator of the given type; `s` is the state
of the free list that allocator works on and `sizeOf` gives `sizeof` of each
element type. -/
def AllocatorType.allocate (sizeOf : ElementType → Nat) (heap : Option Block)
    (s : AllocatorState) (n : Nat) : AllocatorType → Except Exception Block × AllocatorState
  | AllocatorType.OutputMessageAllocator =>
    OutputMessage.allocate (sizeOf ElementType.OutputMessage) heap s n
  | AllocatorType.LockfreePoolingAllocator U _ =>
    LockfreePoolingAllocator.allocate (sizeOf U) heap s n

/-- The call `allocate(n)` on an allocator of the given type, together with
the count the allocator was given. -/
def AllocatorType.allocateCounted (sizeOf : ElementType → Nat) (heap : Option Block)
    (s : AllocatorState) (n : Nat) (a : AllocatorType) :
    List Nat × Except Exception Block × AllocatorState :=
  ([n], AllocatorType.allocate sizeOf heap s n a)

/-- An `OutputMessage_ptr` as `std::allocate_shared` makes it: the block that
holds the message, whether the message was constructed, and the number of
owners. -/
structure SharedMessage where
  block : Block
  constructed : Bool
  owners : Nat
  deriving DecidableEq, Repr

/-- What a call of `getOutputMessage` does: the counts its allocator was
given, the handle it returns (or the exception that escapes) and the state it
leaves. -/
structure Acquisition where
  requested : List Nat
  handle : Except Exception SharedMessage
  state : AllocatorState

/-- Modelled from the spec: `std::allocate_shared<OutputMessage>(alloc)` of
the standard library, called with an `OutputMessageAllocator`. It rebinds the
allocator to the type that holds the message together with its reference
counts (`controlBlock`), asks the rebound allocator for storage for one
object, constructs the message there and returns a handle with one owner; an
exception of the allocator escapes. -/
def allocate_shared (controlBlock : ElementType) (sizeOf : ElementType → Nat)
    (heap : Option Block) (s : AllocatorState) : Acquisition :=
  match AllocatorType.allocateCounted sizeOf heap s 1 (rebind controlBlock) with
  | (counts, Except.ok p, s1) =>
    { requested := counts,
      handle := Except.ok { block := p, constructed := true, owners := 1 }, state := s1 }
  | (counts, Except.error e, s1) =>
    { requested := counts, handle := Except.error e, state := s1 }

/-- Lines 130-133, `OutputMessagePool::getOutputMessage`:
`std::allocate_shared<OutputMessage>(OutputMessageAllocator())`. -/
def getOutputMessage (controlBlock : ElementType) (sizeOf : ElementType → Nat)
    (heap : Option Block) (s : AllocatorState) : Acquisition :=
  allocate_shared controlBlock sizeOf heap s

/-- A run of the pool: connection 1 registers, the armed task fires,
connection 2 registers and connection 1 unregisters. -/
def cycleRun : List Operation :=
  [Operation.addProtocolToAutosend 1, Operation.fireFlushTask,
   Operation.addProtocolToAutosend 2, Operation.removeProtocolFromAutosend 1]

/-- The state `cycleRun` ends in, from the initial state with the pending
buffers of the scenario. -/
def cycleState : Pool :=
  (run (initialPool scenarioPool.currentBuffer) cycleRun).getD
    (initialPool scenarioPool.currentBuffer)

/-- The books are sound: no block is live twice or twice on the free list, no
live block is on the free list, the null pointer is neither live nor on the
free list, the live blocks are the allocated ones minus the deallocated ones
(block by block and in number), and every deallocated block is on the free
list, was released to the heap, or is live again. -/
def Ledger.Sound (t : Ledger) : Prop :=
  t.live.Nodup ∧ t.state.freeList.Nodup ∧
  (∀ b ∈ t.live, b ∉ t.state.freeList) ∧
  nullptr ∉ t.live ∧ nullptr ∉ t.state.freeList ∧
  (∀ b : Block, t.live.count b + t.deallocated.count b = t.allocated.count b) ∧
  t.live.length + t.deallocated.length = t.allocated.length ∧
  (∀ b ∈ t.deallocated,
    b ∈ t.state.freeList ∨ HeapCall.operatorDelete b ∈ t.state.heapCalls ∨ b ∈ t.live)

/-- A disciplined run: two blocks come from the heap, the first is freed and
reused, then both are freed. -/
def ledgerRun : List AllocatorCall :=
  [AllocatorCall.allocate 1 (some 5), AllocatorCall.allocate 1 (some 6),
   AllocatorCall.deallocate 5 1, AllocatorCall.allocate 1 (some 9),
   AllocatorCall.deallocate 6 1, AllocatorCall.deallocate 5 1]

/-! ## Properties of the registry and of the flush cycle -/

theorem sentOn_append (a b : List ProtocolCall) : sentOn (a ++ b) = sentOn a ++ sentOn b := by
  induction a with
  | nil => rfl
  | cons x xs ih => cases x <;> simp [sentOn, ih]

theorem visited_append (a b : List ProtocolCall) :
    visited (a ++ b) = visited a ++ visited b := by
  induction a with
  | nil => rfl
  | cons x xs ih => cases x <;> simp [visited, ih]

theorem visited_passCallsOver (buf : Protocol_ptr → OutputMessage_ptr) (l : List Protocol_ptr) :
    visited (passCallsOver buf l) = l := by
  induction l with
  | nil => rfl
  | cons p rest ih =>
    simp only [passCallsOver, visited_append, ih]
    cases h : buf p <;> simp [passCallsOn, visited]

theorem sentOn_passCallsOver (buf : Protocol_ptr → OutputMessage_ptr) (l : List Protocol_ptr) :
    sentOn (passCallsOver buf l) = l.filter (fun p => (buf p).isSome) := by
  induction l with
  | nil => rfl
  | cons p rest ih =>
    simp only [passCallsOver, sentOn_append, ih]
    cases h : buf p <;> simp [passCallsOn, sentOn, List.filter_cons, h]

theorem passCallsOver_congr (buf buf2 : Protocol_ptr → OutputMessage_ptr)
    (l : List Protocol_ptr) (h : ∀ p ∈ l, buf p = buf2 p) :
    passCallsOver buf l = passCallsOver buf2 l := by
  induction l with
  | nil => rfl
  | cons p rest ih =>
    simp only [passCallsOver]
    rw [h p (List.mem_cons_self _ _), ih (fun q hq => h q (List.mem_cons_of_mem _ hq))]

/-- The loop of `sendAll` over pairwise distinct entries makes, on each entry
in turn, the calls its pending buffer at the start of the pass asks for. -/
theorem sendAllLoop_calls (l : List Protocol_ptr) :
    ∀ (buf : Protocol_ptr → OutputMessage_ptr) (calls : List ProtocolCall), l.Nodup →
      (sendAllLoop l buf calls).2 = calls ++ passCallsOver buf l := by
  induction l with
  | nil => intro buf calls _; simp [sendAllLoop, passCallsOver]
  | cons p rest ih =>
    intro buf calls hnd
    have hp : p ∉ rest := (List.nodup_cons.mp hnd).1
    have hrest : rest.Nodup := (List.nodup_cons.mp hnd).2
    cases hb : buf p with
    | none =>
      simp only [sendAllLoop, hb, passCallsOver, passCallsOn]
      rw [ih buf _ hrest]
      simp
    | some msg =>
      simp only [sendAllLoop, hb, passCallsOver, passCallsOn]
      rw [ih _ _ hrest]
      have hc : passCallsOver (moveBuffer buf p) rest = passCallsOver buf rest := by
        apply passCallsOver_congr
        intro q hq
        have hne : q ≠ p := fun e => hp (e ▸ hq)
        simp [moveBuffer, hne]
      rw [hc]
      simp

/-- After the loop of `sendAll`, the pending buffer of every entry visited is
null and the other buffers are as before. -/
theorem sendAllLoop_buffers (l : List Protocol_ptr) :
    ∀ (buf : Protocol_ptr → OutputMessage_ptr) (calls : List ProtocolCall) (q : Protocol_ptr),
      (sendAllLoop l buf calls).1 q = if q ∈ l then none else buf q := by
  induction l with
  | nil => intro buf calls q; simp [sendAllLoop]
  | cons p rest ih =>
    intro buf calls q
    cases hb : buf p with
    | none =>
      simp only [sendAllLoop, hb]
      rw [ih]
      by_cases hq : q = p
      · subst hq; simp [hb]
      · simp [hq]
    | some msg =>
      simp only [sendAllLoop, hb]
      rw [ih]
      by_cases hq : q = p
      · subst hq; simp [moveBuffer]
      · simp [hq, moveBuffer]

theorem sendAll_bufferedProtocols (s : Pool) :
    (sendAll s).bufferedProtocols = s.bufferedProtocols := by
  unfold sendAll
  simp only
  split <;> simp [scheduleSendAll]

theorem sendAll_calls (s : Pool) :
    (sendAll s).calls = (sendAllLoop s.bufferedProtocols s.currentBuffer s.calls).2 := by
  unfold sendAll
  simp only
  split <;> simp [scheduleSendAll]

theorem sendAll_scheduler (s : Pool) :
    (sendAll s).scheduler =
      if s.bufferedProtocols = [] then s.scheduler
      else s.scheduler ++ [OUTPUTMESSAGE_AUTOSEND_DELAY] := by
  unfold sendAll
  cases h : s.bufferedProtocols <;> simp [scheduleSendAll, h]

/-- C1: `addProtocolToAutosend(c)` appends `c` as the last entry of the
registry, every earlier entry keeping its position, and arms exactly one new
flush task, with the fixed delay of 10 ms, when the registry was empty
beforehand and none when it was not; nothing else changes. -/
theorem addProtocolToAutosend_appends_and_arms (s : Pool) (c : Protocol_ptr) :
    (addProtocolToAutosend s c).bufferedProtocols = s.bufferedProtocols ++ [c] ∧
    (addProtocolToAutosend s c).bufferedProtocols.getLast? = some c ∧
    (∀ i : Fin s.bufferedProtocols.length,
      (addProtocolToAutosend s c).bufferedProtocols[i.val]? = some (s.bufferedProtocols.get i)) ∧
    (addProtocolToAutosend s c).scheduler =
      (if s.bufferedProtocols = [] then s.scheduler ++ [10] else s.scheduler) ∧
    (addProtocolToAutosend s c).currentBuffer = s.currentBuffer ∧
    (addProtocolToAutosend s c).calls = s.calls := by
  have hreg : (addProtocolToAutosend s c).bufferedProtocols = s.bufferedProtocols ++ [c] := by
    unfold addProtocolToAutosend
    cases h : s.bufferedProtocols <;> simp [scheduleSendAll, h]
  refine ⟨hreg, ?_, ?_, ?_, ?_, ?_⟩
  · rw [hreg]; simp
  · intro i
    rw [hreg, List.getElem?_append_left i.isLt]
    simp
  · unfold addProtocolToAutosend
    cases h : s.bufferedProtocols <;>
      simp [scheduleSendAll, h, OUTPUTMESSAGE_AUTOSEND_DELAY]
  · unfold addProtocolToAutosend
    cases h : s.bufferedProtocols <;> simp [scheduleSendAll, h]
  · unfold addProtocolToAutosend
    cases h : s.bufferedProtocols <;> simp [scheduleSendAll, h]

/-- C2: over a registry of pairwise distinct connections, one flush pass
(`sendAll`) asks every registered connection for its pending buffer, in
registry order, calls `send` exactly once on each registered connection whose
pending buffer is non-null and never on another connection, in registry order
too, and leaves the registry unchanged. -/
theorem sendAll_sends_each_pending_once (s : Pool) (h : s.bufferedProtocols.Nodup) :
    (sendAll s).bufferedProtocols = s.bufferedProtocols ∧
    (sendAll s).calls = s.calls ++ flushCalls s ∧
    flushCalls s = passCallsOver s.currentBuffer s.bufferedProtocols ∧
    visited (flushCalls s) = s.bufferedProtocols ∧
    sentOn (flushCalls s) = s.bufferedProtocols.filter (fun p => (s.currentBuffer p).isSome) ∧
    (∀ p : Protocol_ptr,
      (sentOn (flushCalls s)).count p =
        if p ∈ s.bufferedProtocols ∧ (s.currentBuffer p).isSome then 1 else 0) := by
  have hcalls : (sendAll s).calls =
      s.calls ++ passCallsOver s.currentBuffer s.bufferedProtocols := by
    rw [sendAll_calls, sendAllLoop_calls _ _ _ h]
  have hflush : flushCalls s = passCallsOver s.currentBuffer s.bufferedProtocols := by
    unfold flushCalls
    rw [hcalls, List.drop_left]
  refine ⟨sendAll_bufferedProtocols s, ?_, hflush, ?_, ?_, ?_⟩
  · rw [hflush, hcalls]
  · rw [hflush, visited_passCallsOver]
  · rw [hflush, sentOn_passCallsOver]
  · intro p
    rw [hflush, sentOn_passCallsOver, List.count_eq_of_nodup (h.filter _)]
    simp [List.mem_filter]

/-- C2, on the scenario of the specification: with connections 1, 2, 3
registered and only 2 holding a pending buffer, the pass makes exactly one
`send`, on connection 2, and the registry is still 1, 2, 3. -/
theorem sendAll_sends_each_pending_once_witness :
    scenarioPool.bufferedProtocols.Nodup ∧
    (sendAll scenarioPool).bufferedProtocols = [1, 2, 3] ∧
    sentOn (flushCalls scenarioPool) = [2] :=
  ⟨by decide,
   (sendAll_sends_each_pending_once scenarioPool (by decide)).1,
   (sendAll_sends_each_pending_once scenarioPool (by decide)).2.2.2.2.1⟩

/-- C3: a flush pass (`sendAll`) arms exactly one new flush task, with the
same fixed delay of 10 ms, when the registry is non-empty after the pass and
arms none when it is empty; the pending buffers and the calls made play no
part in it. -/
theorem sendAll_rearms_iff_registry_nonempty (s : Pool)
    (currentBuffer : Protocol_ptr → OutputMessage_ptr) (calls : List ProtocolCall) :
    (sendAll s).scheduler =
      (if (sendAll s).bufferedProtocols = [] then s.scheduler else s.scheduler ++ [10]) ∧
    (sendAll { s with currentBuffer := currentBuffer, calls := calls }).scheduler =
      (sendAll s).scheduler := by
  constructor
  · rw [sendAll_bufferedProtocols, sendAll_scheduler]; rfl
  · rw [sendAll_scheduler, sendAll_scheduler]

/-- C4, at the failing run: from the initial state, registering connection 1,
unregistering it before the armed task fires and registering it again leaves
two flush tasks armed, with connection 1 in the registry. -/
theorem two_flush_tasks_armed_after_add_remove_add :
    (run (initialPool (fun _ => none))
      [Operation.addProtocolToAutosend 1, Operation.removeProtocolFromAutosend 1,
       Operation.addProtocolToAutosend 1]).map
      (fun s => (s.bufferedProtocols, s.scheduler)) = some ([1], [10, 10]) := by
  decide

/-- Before the position `std::find` returns, no entry equals the value looked
for. -/
theorem indexOf_first (c : Protocol_ptr) :
    ∀ (l : List Protocol_ptr) (j : Nat), j < l.indexOf c → l[j]? ≠ some c := by
  intro l
  induction l with
  | nil => intro j hj; simp at hj
  | cons b rest ih =>
    intro j hj
    by_cases hb : b = c
    · rw [List.indexOf_cons_eq _ hb] at hj
      omega
    · rw [List.indexOf_cons_ne _ hb] at hj
      cases j with
      | zero => simpa using hb
      | succ k =>
        have := ih k (by omega)
        simpa using this

/-- Overwriting the last slot does not show once the last slot is dropped. -/
theorem dropLast_set_last (l : List Protocol_ptr) (x : Protocol_ptr) :
    (l.set (l.length - 1) x).dropLast = l.dropLast := by
  rw [List.dropLast_eq_take, List.dropLast_eq_take, List.length_set, List.set_take,
    List.set_eq_of_length_le]
  rw [List.length_take]
  exact Nat.min_le_left _ _

/-- Swapping an entry with the back and popping the back is overwriting the
entry with the back and popping the back. -/
theorem swapWithBack_dropLast (v : List Protocol_ptr) (it : Nat) (hit : it < v.length)
    (hne : v ≠ []) :
    (swapWithBack v it).dropLast = (v.set it (v.getLast hne)).dropLast := by
  unfold swapWithBack
  rw [List.getElem?_eq_getElem hit, List.getLast?_eq_getLast v hne]
  simp only
  have hlen : v.length = (v.set it (v.getLast hne)).length := (List.length_set _ _ _).symm
  rw [hlen]
  exact dropLast_set_last _ _

theorem removeProtocolFromAutosend_bufferedProtocols (s : Pool) (c : Protocol_ptr)
    (h : c ∈ s.bufferedProtocols) :
    (removeProtocolFromAutosend s c).bufferedProtocols =
      (s.bufferedProtocols.set (s.bufferedProtocols.indexOf c)
        (s.bufferedProtocols.getLast (List.ne_nil_of_mem h))).dropLast := by
  have hlt : s.bufferedProtocols.indexOf c < s.bufferedProtocols.length :=
    List.indexOf_lt_length.mpr h
  unfold removeProtocolFromAutosend
  simp only
  rw [if_pos (by omega)]
  exact swapWithBack_dropLast _ _ hlt _

/-- C5: when the registry contains `c`, `removeProtocolFromAutosend(c)` yields
the registry in which the slot of the first occurrence of `c` is overwritten
with the former last entry and the last slot is then dropped: the length goes
down by exactly one, every entry that is neither the removed one nor the
former last one keeps its index, and the former last entry sits in the slot
of the removed one. No flush task is armed or cancelled. -/
theorem removeProtocolFromAutosend_swaps_last_into_slot (s : Pool) (c : Protocol_ptr)
    (h : c ∈ s.bufferedProtocols) :
    s.bufferedProtocols[s.bufferedProtocols.indexOf c]? = some c ∧
    (∀ j, j < s.bufferedProtocols.indexOf c → s.bufferedProtocols[j]? ≠ some c) ∧
    (removeProtocolFromAutosend s c).bufferedProtocols =
      (s.bufferedProtocols.set (s.bufferedProtocols.indexOf c)
        (s.bufferedProtocols.getLast (List.ne_nil_of_mem h))).dropLast ∧
    (removeProtocolFromAutosend s c).bufferedProtocols.length + 1 =
      s.bufferedProtocols.length ∧
    (∀ j, j < s.bufferedProtocols.length - 1 → j ≠ s.bufferedProtocols.indexOf c →
      (removeProtocolFromAutosend s c).bufferedProtocols[j]? = s.bufferedProtocols[j]?) ∧
    (s.bufferedProtocols.indexOf c < s.bufferedProtocols.length - 1 →
      (removeProtocolFromAutosend s c).bufferedProtocols[s.bufferedProtocols.indexOf c]? =
        s.bufferedProtocols.getLast?) ∧
    (removeProtocolFromAutosend s c).scheduler = s.scheduler := by
  have hlt : s.bufferedProtocols.indexOf c < s.bufferedProtocols.length :=
    List.indexOf_lt_length.mpr h
  have hreg := removeProtocolFromAutosend_bufferedProtocols s c h
  refine ⟨?_, indexOf_first c _, hreg, ?_, ?_, ?_, ?_⟩
  · rw [List.getElem?_eq_getElem hlt, List.getElem_indexOf hlt]
  · rw [hreg, List.length_dropLast, List.length_set]
    omega
  · intro j hj hji
    rw [hreg, List.getElem?_dropLast, List.length_set, if_pos hj,
      List.getElem?_set_ne (Ne.symm hji)]
  · intro hi
    rw [hreg, List.getElem?_dropLast, List.length_set, if_pos hi,
      List.getElem?_set_self hlt, List.getLast?_eq_getLast _ (List.ne_nil_of_mem h)]
  · unfold removeProtocolFromAutosend
    simp only
    split <;> rfl

/-- C5, on the scenario of the specification: removing connection 1 from the
registry 1, 2, 3 gives the registry 3, 2. -/
theorem removeProtocolFromAutosend_swaps_last_into_slot_witness :
    1 ∈ scenarioPool.bufferedProtocols ∧
    (removeProtocolFromAutosend scenarioPool 1).bufferedProtocols = [3, 2] :=
  ⟨by decide,
   (removeProtocolFromAutosend_swaps_last_into_slot scenarioPool 1 (by decide)).2.2.1⟩

/-- C6: when the registry does not contain `c`, `removeProtocolFromAutosend(c)`
changes nothing: the registry keeps its entries, in the same order, and the
armed flush tasks are the same. -/
theorem removeProtocolFromAutosend_absent_is_noop (s : Pool) (c : Protocol_ptr)
    (h : c ∉ s.bufferedProtocols) :
    removeProtocolFromAutosend s c = s ∧
    (removeProtocolFromAutosend s c).bufferedProtocols = s.bufferedProtocols ∧
    (∀ p : Protocol_ptr, (removeProtocolFromAutosend s c).bufferedProtocols.count p =
      s.bufferedProtocols.count p) ∧
    (removeProtocolFromAutosend s c).scheduler = s.scheduler := by
  have he : removeProtocolFromAutosend s c = s := by
    unfold removeProtocolFromAutosend
    simp only
    rw [if_neg (by rw [not_not]; exact List.indexOf_eq_length.mpr h)]
  rw [he]
  exact ⟨rfl, rfl, fun _ => rfl, rfl⟩

/-- C6, on the scenario of the specification: removing connection 9, which is
not registered, leaves the registry 1, 2, 3 and the one armed task. -/
theorem removeProtocolFromAutosend_absent_is_noop_witness :
    9 ∉ scenarioPool.bufferedProtocols ∧
    (removeProtocolFromAutosend scenarioPool 9).bufferedProtocols = [1, 2, 3] ∧
    (removeProtocolFromAutosend scenarioPool 9).scheduler = [10] :=
  ⟨by decide,
   (removeProtocolFromAutosend_absent_is_noop scenarioPool 9 (by decide)).2.1,
   (removeProtocolFromAutosend_absent_is_noop scenarioPool 9 (by decide)).2.2.2⟩

/-! ## Properties of the allocator -/

/-- C7, as stated, fails when the heap is exhausted: `allocate(1)` on an empty
free list reaches `operator new` (line 58), which throws `std::bad_alloc`, so
the call fails although the count is 1. -/
theorem allocate_one_throws_when_heap_exhausted :
    (allocate 64 none { freeList := [], heapCalls := [] } 1).1 =
      Except.error Exception.bad_alloc :=
  rfl

/-- C7, amended: `allocate(n)` throws `bad_alloc` exactly when `n` is not 1,
or `n` is 1, the free list is empty and the heap is exhausted (`operator new`
throws); when it throws, the free list and the heap are as before;
`allocate(1)` returns the top block whenever the free list is non-empty, and
the block the heap hands out when the list is empty and the heap is not
exhausted. -/
theorem allocate_throws_iff_wrong_count_or_heap_exhausted (sizeofOutputMessage : Nat)
    (heap : Option Block) (s : AllocatorState) (n : Nat) :
    ((allocate sizeofOutputMessage heap s n).1 = Except.error Exception.bad_alloc ↔
      n ≠ 1 ∨ (s.freeList = [] ∧ heap = none)) ∧
    ((allocate sizeofOutputMessage heap s n).1 = Except.error Exception.bad_alloc →
      (allocate sizeofOutputMessage heap s n).2 = s) ∧
    (∀ (top : Block) (rest : FreeList), s.freeList = top :: rest →
      (allocate sizeofOutputMessage heap s 1).1 = Except.ok top) ∧
    (∀ heapBlock : Block, s.freeList = [] →
      (allocate sizeofOutputMessage (some heapBlock) s 1).1 = Except.ok heapBlock) := by
  refine ⟨?_, ?_, ?_, ?_⟩
  · by_cases hn : n = 1
    · subst hn
      unfold allocate
      cases hfl : s.freeList <;> cases heap <;> simp [FreeList.pop]
    · simp [allocate, hn]
  · by_cases hn : n = 1
    · subst hn
      unfold allocate
      cases hfl : s.freeList <;> cases heap <;> simp [FreeList.pop]
    · simp [allocate, hn]
  · intro top rest hfl
    simp [allocate, FreeList.pop, hfl]
  · intro heapBlock hfl
    simp [allocate, FreeList.pop, hfl]

/-- C9: for a non-null block `p`, `deallocate(p, 1)` makes `p` the new top of
the free list, the heap not being called, when the list holds fewer than 2048
entries; otherwise (the list holds 2048 entries) the free list is unchanged
and `p` is released with one call of `operator delete`. -/
theorem deallocate_one_pushes_or_releases (s : AllocatorState) (p : Block)
    (hp : p ≠ nullptr) :
    deallocate s p 1 =
      if s.freeList.length < 2048 then
        { freeList := p :: s.freeList, heapCalls := s.heapCalls }
      else
        { freeList := s.freeList, heapCalls := s.heapCalls ++ [HeapCall.operatorDelete p] } := by
  unfold deallocate
  rw [if_neg (by simp [hp])]
  by_cases hlen : s.freeList.length < 2048
  · simp [FreeList.bounded_push, OUTPUTMESSAGE_FREE_LIST_CAPACITY, hlen]
  · simp [FreeList.bounded_push, OUTPUTMESSAGE_FREE_LIST_CAPACITY, hlen]

/-- C9, at concrete inputs: block 9 is pushed on top of the free list holding
block 7, and is released to the heap when the free list holds 2048 blocks. -/
theorem deallocate_one_pushes_or_releases_witness :
    (9 : Block) ≠ nullptr ∧
    deallocate { freeList := [7], heapCalls := [] } 9 1 =
      { freeList := [9, 7], heapCalls := [] } ∧
    deallocate { freeList := List.replicate 2048 5, heapCalls := [] } 9 1 =
      { freeList := List.replicate 2048 5, heapCalls := [HeapCall.operatorDelete 9] } :=
  ⟨by decide,
   (deallocate_one_pushes_or_releases { freeList := [7], heapCalls := [] } 9 (by decide)).trans
     (by simp),
   (deallocate_one_pushes_or_releases { freeList := List.replicate 2048 5, heapCalls := [] } 9
     (by decide)).trans (if_neg (by rw [List.length_replicate]; exact Nat.lt_irrefl _))⟩

/-- C10: `deallocate(p, n)` with `p` null or `n` other than 1 changes nothing:
the free list is as before and the heap is not called. -/
theorem deallocate_null_or_wrong_count_is_noop (s : AllocatorState) (p : Block) (n : Nat)
    (h : p = nullptr ∨ n ≠ 1) :
    deallocate s p n = s := by
  unfold deallocate
  rw [if_pos (Or.symm h)]

/-- C10, at a concrete input: the non-null block 9 passed with count 2 is
neither pushed on the free list nor released to the heap. -/
theorem deallocate_null_or_wrong_count_is_noop_witness :
    ((9 : Block) = nullptr ∨ (2 : Nat) ≠ 1) ∧
    deallocate { freeList := [7], heapCalls := [] } 9 2 =
      { freeList := [7], heapCalls := [] } :=
  ⟨by decide,
   deallocate_null_or_wrong_count_is_noop { freeList := [7], heapCalls := [] } 9 2 (by decide)⟩

/-! ## Properties of runs of the allocator -/

/-- What `deallocate(p, 1)` does with a non-null block. -/
theorem deallocate_one_eq (s : AllocatorState) (p : Block) (hp : p ≠ nullptr) :
    deallocate s p 1 =
      if s.freeList.length < 2048 then
        { freeList := p :: s.freeList, heapCalls := s.heapCalls }
      else
        { freeList := s.freeList, heapCalls := s.heapCalls ++ [HeapCall.operatorDelete p] } := by
  unfold deallocate
  rw [if_neg (by simp [hp])]
  by_cases hlen : s.freeList.length < 2048
  · simp [FreeList.bounded_push, OUTPUTMESSAGE_FREE_LIST_CAPACITY, hlen]
  · simp [FreeList.bounded_push, OUTPUTMESSAGE_FREE_LIST_CAPACITY, hlen]

/-- A `deallocate` call that changes nothing. -/
theorem deallocate_noop (s : AllocatorState) (p : Block) (n : Nat)
    (h : ¬ (n = 1 ∧ p ≠ nullptr)) : deallocate s p n = s := by
  unfold deallocate
  rw [if_pos]
  by_cases hn : n = 1
  · right
    by_contra hp
    exact h ⟨hn, hp⟩
  · left
    exact hn

/-- What `allocate(1)` does on a non-empty free list. -/
theorem allocate_one_cons (sizeofOutputMessage : Nat) (heap : Option Block)
    (s : AllocatorState) (top : Block) (rest : FreeList) (h : s.freeList = top :: rest) :
    allocate sizeofOutputMessage heap s 1 =
      (Except.ok top, { freeList := rest, heapCalls := s.heapCalls }) := by
  simp [allocate, FreeList.pop, h]

/-- What `allocate(1)` does on an empty free list when the heap is exhausted. -/
theorem allocate_one_nil_exhausted (sizeofOutputMessage : Nat)
    (s : AllocatorState) (h : s.freeList = []) :
    allocate sizeofOutputMessage none s 1 = (Except.error Exception.bad_alloc, s) := by
  simp [allocate, FreeList.pop, h]

/-- What `allocate(1)` does on an empty free list when the heap hands out a
block. -/
theorem allocate_one_nil (sizeofOutputMessage : Nat) (heapBlock : Block)
    (s : AllocatorState) (h : s.freeList = []) :
    allocate sizeofOutputMessage (some heapBlock) s 1 =
      (Except.ok heapBlock,
        { freeList := [],
          heapCalls := s.heapCalls ++
            [HeapCall.operatorNew sizeofOutputMessage heapBlock] }) := by
  simp [allocate, FreeList.pop, h]

/-- A call of `allocate` with a count other than 1. -/
theorem allocate_wrong_count (sizeofOutputMessage : Nat) (heap : Option Block)
    (s : AllocatorState) (n : Nat) (h : n ≠ 1) :
    allocate sizeofOutputMessage heap s n = (Except.error Exception.bad_alloc, s) := by
  simp [allocate, h]

/-- No call of `deallocate` makes the free list longer than 2048 entries. -/
theorem deallocate_freeList_length (s : AllocatorState) (p : Block) (n : Nat)
    (h : s.freeList.length ≤ 2048) : (deallocate s p n).freeList.length ≤ 2048 := by
  by_cases hc : n = 1 ∧ p ≠ nullptr
  · obtain ⟨hn, hp⟩ := hc
    subst hn
    rw [deallocate_one_eq s p hp]
    split
    · simp only [List.length_cons]; omega
    · exact h
  · rw [deallocate_noop s p n hc]
    exact h

/-- No call of `allocate` makes the free list longer. -/
theorem allocate_freeList_length (sizeofOutputMessage : Nat) (heap : Option Block)
    (s : AllocatorState) (n : Nat) :
    (allocate sizeofOutputMessage heap s n).2.freeList.length ≤ s.freeList.length := by
  by_cases hn : n = 1
  · subst hn
    cases hfl : s.freeList with
    | nil =>
      cases heap with
      | none => rw [allocate_one_nil_exhausted _ _ hfl, hfl]
      | some heapBlock => rw [allocate_one_nil _ _ _ hfl]
    | cons top rest => rw [allocate_one_cons _ _ _ _ _ hfl]; simp
  · rw [allocate_wrong_count _ _ _ _ hn]

theorem applyCall_allocate_state (sizeofOutputMessage : Nat) (s : AllocatorState)
    (n : Nat) (heap : Option Block) :
    (applyCall sizeofOutputMessage s (AllocatorCall.allocate n heap)).2 =
      (allocate sizeofOutputMessage heap s n).2 := by
  simp only [applyCall]
  split <;> simp [*]

theorem applyCall_freeList_length (sizeofOutputMessage : Nat) (s : AllocatorState)
    (call : AllocatorCall) (h : s.freeList.length ≤ 2048) :
    (applyCall sizeofOutputMessage s call).2.freeList.length ≤ 2048 := by
  cases call with
  | allocate n heap =>
    rw [applyCall_allocate_state]
    exact Nat.le_trans (allocate_freeList_length sizeofOutputMessage heap s n) h
  | deallocate p n => exact deallocate_freeList_length s p n h

theorem runCalls_freeList_length (sizeofOutputMessage : Nat) (calls : List AllocatorCall) :
    ∀ s : AllocatorState, s.freeList.length ≤ 2048 →
      (runCalls sizeofOutputMessage s calls).2.freeList.length ≤ 2048 := by
  induction calls with
  | nil => intro s h; exact h
  | cons call rest ih =>
    intro s h
    exact ih _ (applyCall_freeList_length sizeofOutputMessage s call h)

theorem runCalls_deallocate_returns (sizeofOutputMessage : Nat) (calls : List AllocatorCall) :
    ∀ (s : AllocatorState) (p : Block) (n : Nat) (res : CallResult),
      (AllocatorCall.deallocate p n, res) ∈ (runCalls sizeofOutputMessage s calls).1 →
        res = Except.ok none := by
  induction calls with
  | nil => intro s p n res h; simp [runCalls] at h
  | cons call rest ih =>
    intro s p n res h
    simp only [runCalls, List.mem_cons] at h
    rcases h with h | h
    · cases call with
      | allocate m heapBlock => simp at h
      | deallocate q m =>
        simp only [applyCall, Prod.mk.injEq] at h
        exact h.2
    · exact ih _ p n res h

/-- C11: starting from an empty free list, after every finite sequence of
`allocate` and `deallocate` calls with arbitrary arguments the free list holds
at most 2048 entries, and every `deallocate` call of the sequence returns
(none of them throws). -/
theorem freeList_never_exceeds_capacity (sizeofOutputMessage : Nat)
    (heapCalls : List HeapCall) (calls : List AllocatorCall) :
    (runCalls sizeofOutputMessage { freeList := [], heapCalls := heapCalls }
      calls).2.freeList.length ≤ 2048 ∧
    (∀ (p : Block) (n : Nat) (res : CallResult),
      (AllocatorCall.deallocate p n, res) ∈
        (runCalls sizeofOutputMessage { freeList := [], heapCalls := heapCalls } calls).1 →
      res = Except.ok none) ∧
    ((runCalls sizeofOutputMessage { freeList := [], heapCalls := heapCalls } calls).1.map
      Prod.fst = calls) := by
  refine ⟨runCalls_freeList_length _ _ _ (by simp), runCalls_deallocate_returns _ _ _, ?_⟩
  generalize ({ freeList := [], heapCalls := heapCalls } : AllocatorState) = s
  induction calls generalizing s with
  | nil => rfl
  | cons call rest ih => simp [runCalls, ih]

/-! ## Duplicate entries, the flush cycle and the round trip -/

/-- The loop of `sendAll` asks every entry, duplicates included, for its
pending buffer, in registry order, after the calls already made. -/
theorem sendAllLoop_visits (l : List Protocol_ptr) :
    ∀ (buf : Protocol_ptr → OutputMessage_ptr) (calls : List ProtocolCall),
      ∃ tr : List ProtocolCall, (sendAllLoop l buf calls).2 = calls ++ tr ∧ visited tr = l := by
  induction l with
  | nil => intro buf calls; exact ⟨[], by simp [sendAllLoop], rfl⟩
  | cons p rest ih =>
    intro buf calls
    cases hb : buf p with
    | none =>
      obtain ⟨tr, htr, hv⟩ := ih buf (calls ++ [ProtocolCall.getCurrentBuffer p])
      refine ⟨ProtocolCall.getCurrentBuffer p :: tr, ?_, ?_⟩
      · simp only [sendAllLoop, hb]
        rw [htr]
        simp
      · simp [visited, hv]
    | some msg =>
      obtain ⟨tr, htr, hv⟩ := ih (moveBuffer buf p)
        (calls ++ [ProtocolCall.getCurrentBuffer p, ProtocolCall.send p msg])
      refine ⟨ProtocolCall.getCurrentBuffer p :: ProtocolCall.send p msg :: tr, ?_, ?_⟩
      · simp only [sendAllLoop, hb]
        rw [htr]
        simp
      · simp [visited, hv]

/-- A flush pass visits the registry as it stands, entry by entry. -/
theorem visited_flushCalls (s : Pool) : visited (flushCalls s) = s.bufferedProtocols := by
  obtain ⟨tr, htr, hv⟩ := sendAllLoop_visits s.bufferedProtocols s.currentBuffer s.calls
  unfold flushCalls
  rw [sendAll_calls, htr, List.drop_left]
  exact hv

theorem addProtocolToAutosend_bufferedProtocols (s : Pool) (c : Protocol_ptr) :
    (addProtocolToAutosend s c).bufferedProtocols = s.bufferedProtocols ++ [c] := by
  unfold addProtocolToAutosend
  cases h : s.bufferedProtocols <;> simp [scheduleSendAll, h]

theorem addProtocolToAutosend_scheduler (s : Pool) (c : Protocol_ptr) :
    (addProtocolToAutosend s c).scheduler =
      if s.bufferedProtocols = [] then s.scheduler ++ [OUTPUTMESSAGE_AUTOSEND_DELAY]
      else s.scheduler := by
  unfold addProtocolToAutosend
  cases h : s.bufferedProtocols <;> simp [scheduleSendAll, h]

theorem removeProtocolFromAutosend_scheduler (s : Pool) (c : Protocol_ptr) :
    (removeProtocolFromAutosend s c).scheduler = s.scheduler := by
  unfold removeProtocolFromAutosend
  simp only
  split <;> rfl

/-- The loop of `sendAll` over any entries, duplicates included: it calls
`send` on a connection once if the connection is among the entries with a
non-null pending buffer, and never otherwise. -/
theorem sendAllLoop_sends (l : List Protocol_ptr) :
    ∀ (buf : Protocol_ptr → OutputMessage_ptr) (calls : List ProtocolCall),
      ∃ tr : List ProtocolCall, (sendAllLoop l buf calls).2 = calls ++ tr ∧
        ∀ p : Protocol_ptr,
          (sentOn tr).count p = if p ∈ l ∧ (buf p).isSome then 1 else 0 := by
  induction l with
  | nil => intro buf calls; exact ⟨[], by simp [sendAllLoop], by simp [sentOn]⟩
  | cons q rest ih =>
    intro buf calls
    cases hb : buf q with
    | none =>
      obtain ⟨tr, htr, hs⟩ := ih buf (calls ++ [ProtocolCall.getCurrentBuffer q])
      refine ⟨ProtocolCall.getCurrentBuffer q :: tr, ?_, ?_⟩
      · simp only [sendAllLoop, hb]
        rw [htr]
        simp
      · intro p
        simp only [sentOn]
        rw [hs p]
        by_cases hpq : p = q
        · subst hpq
          simp [hb]
        · simp [hpq]
    | some msg =>
      obtain ⟨tr, htr, hs⟩ := ih (moveBuffer buf q)
        (calls ++ [ProtocolCall.getCurrentBuffer q, ProtocolCall.send q msg])
      refine ⟨ProtocolCall.getCurrentBuffer q :: ProtocolCall.send q msg :: tr, ?_, ?_⟩
      · simp only [sendAllLoop, hb]
        rw [htr]
        simp
      · intro p
        simp only [sentOn]
        rw [List.count_cons, hs p]
        by_cases hpq : p = q
        · subst hpq
          simp [moveBuffer, hb]
        · have hqp : ¬ q = p := fun e => hpq e.symm
          simp [moveBuffer, hpq, hqp]

/-- In one flush pass over any registry, `send` is called on a connection once
if it is registered with a non-null pending buffer, and never otherwise,
however many entries the connection has. -/
theorem sentOn_flushCalls_count (s : Pool) (p : Protocol_ptr) :
    (sentOn (flushCalls s)).count p =
      if p ∈ s.bufferedProtocols ∧ (s.currentBuffer p).isSome then 1 else 0 := by
  obtain ⟨tr, htr, hs⟩ := sendAllLoop_sends s.bufferedProtocols s.currentBuffer s.calls
  unfold flushCalls
  rw [sendAll_calls, htr, List.drop_left]
  exact hs p

/-- With `c` registered twice and nothing else, one flush pass asks `c` for
its pending buffer twice and, the first `send` having taken the buffer over,
calls `send` on `c` once when the buffer was non-null and never otherwise. -/
theorem duplicate_entry_calls (currentBuffer : Protocol_ptr → OutputMessage_ptr)
    (c : Protocol_ptr) :
    flushCalls (addProtocolToAutosend (addProtocolToAutosend (initialPool currentBuffer) c) c) =
      passCallsOn c (currentBuffer c) ++ [ProtocolCall.getCurrentBuffer c] := by
  have hreg : (addProtocolToAutosend (addProtocolToAutosend (initialPool currentBuffer) c)
      c).bufferedProtocols = [c, c] := by
    rw [addProtocolToAutosend_bufferedProtocols, addProtocolToAutosend_bufferedProtocols]
    rfl
  have hbuf : (addProtocolToAutosend (addProtocolToAutosend (initialPool currentBuffer) c)
      c).currentBuffer = currentBuffer := rfl
  have hcalls : (addProtocolToAutosend (addProtocolToAutosend (initialPool currentBuffer) c)
      c).calls = [] := rfl
  unfold flushCalls
  rw [sendAll_calls, hreg, hbuf, hcalls]
  cases hb : currentBuffer c <;> simp [sendAllLoop, hb, moveBuffer, passCallsOn]

/-- C14, as stated, fails on the flush: with connection 2 registered twice and
holding a pending buffer (message 77), one flush pass goes through both
entries but calls `send` on connection 2 once, not twice: the first `send`
takes the buffer over and the second entry finds it empty. -/
theorem duplicate_entry_flushed_once :
    (addProtocolToAutosend (addProtocolToAutosend (initialPool scenarioPool.currentBuffer) 2)
      2).bufferedProtocols = [2, 2] ∧
    flushCalls (addProtocolToAutosend
      (addProtocolToAutosend (initialPool scenarioPool.currentBuffer) 2) 2) =
      [ProtocolCall.getCurrentBuffer 2, ProtocolCall.send 2 77,
       ProtocolCall.getCurrentBuffer 2] ∧
    (sentOn (flushCalls (addProtocolToAutosend
      (addProtocolToAutosend (initialPool scenarioPool.currentBuffer) 2) 2))).count 2 = 1 := by
  decide

/-- C14, amended: registration is not idempotent. `addProtocolToAutosend(c)`
raises the number of entries equal to `c` by exactly one, whether or not `c`
is already registered, so after registering `c` twice the registry holds two
entries more for `c`. One flush pass then asks `c` for its pending buffer once
per entry, but calls `send` on `c` only once, and only when the buffer was
non-null: the first `send` takes the buffer over. -/
theorem duplicate_registration_visited_per_entry_sent_once (s : Pool) (c : Protocol_ptr) :
    (addProtocolToAutosend s c).bufferedProtocols.count c = s.bufferedProtocols.count c + 1 ∧
    (addProtocolToAutosend (addProtocolToAutosend s c) c).bufferedProtocols.count c =
      s.bufferedProtocols.count c + 2 ∧
    (addProtocolToAutosend (addProtocolToAutosend (initialPool s.currentBuffer) c)
      c).bufferedProtocols = [c, c] ∧
    (visited (flushCalls (addProtocolToAutosend (addProtocolToAutosend s c) c))).count c =
      s.bufferedProtocols.count c + 2 ∧
    (sentOn (flushCalls (addProtocolToAutosend (addProtocolToAutosend s c) c))).count c =
      (if (s.currentBuffer c).isSome then 1 else 0) ∧
    flushCalls (addProtocolToAutosend (addProtocolToAutosend (initialPool s.currentBuffer) c)
      c) = passCallsOn c (s.currentBuffer c) ++ [ProtocolCall.getCurrentBuffer c] := by
  have hreg : (addProtocolToAutosend (addProtocolToAutosend s c) c).bufferedProtocols =
      (s.bufferedProtocols ++ [c]) ++ [c] := by
    rw [addProtocolToAutosend_bufferedProtocols, addProtocolToAutosend_bufferedProtocols]
  have hbuf : (addProtocolToAutosend (addProtocolToAutosend s c) c).currentBuffer =
      s.currentBuffer := by
    unfold addProtocolToAutosend
    cases h : s.bufferedProtocols <;> simp [scheduleSendAll, h]
  refine ⟨?_, ?_, ?_, ?_, ?_, duplicate_entry_calls s.currentBuffer c⟩
  · rw [addProtocolToAutosend_bufferedProtocols]
    simp
  · rw [hreg]
    simp
  · rw [addProtocolToAutosend_bufferedProtocols, addProtocolToAutosend_bufferedProtocols]
    rfl
  · rw [visited_flushCalls, hreg]
    simp
  · rw [sentOn_flushCalls_count, hreg, hbuf]
    simp

/-- A property that every operation of the pool preserves holds after every
run from a state that has it. -/
theorem run_preserves (I : Pool → Prop)
    (hstep : ∀ (s s1 : Pool) (op : Operation), I s → applyOperation s op = some s1 → I s1)
    (ops : List Operation) :
    ∀ s s1 : Pool, I s → run s ops = some s1 → I s1 := by
  induction ops with
  | nil =>
    intro s s1 hs h
    simp only [run, Option.some.injEq] at h
    exact h ▸ hs
  | cons op rest ih =>
    intro s s1 hs h
    simp only [run] at h
    cases hop : applyOperation s op with
    | none => simp [hop] at h
    | some s2 =>
      simp only [hop] at h
      exact ih s2 s1 (hstep s s2 op hs hop) h

/-- Every operation keeps a flush task armed while the registry is
non-empty. -/
theorem applyOperation_keeps_armed (s s1 : Pool) (op : Operation)
    (hs : s.bufferedProtocols ≠ [] → s.scheduler ≠ [])
    (h : applyOperation s op = some s1) :
    s1.bufferedProtocols ≠ [] → s1.scheduler ≠ [] := by
  cases op with
  | addProtocolToAutosend c =>
    simp only [applyOperation, Option.some.injEq] at h
    subst h
    intro _
    rw [addProtocolToAutosend_scheduler]
    by_cases hr : s.bufferedProtocols = []
    · simp [hr]
    · simpa [hr] using hs hr
  | removeProtocolFromAutosend c =>
    simp only [applyOperation, Option.some.injEq] at h
    subst h
    intro hne
    rw [removeProtocolFromAutosend_scheduler]
    apply hs
    intro hr
    apply hne
    unfold removeProtocolFromAutosend
    simp [hr]
  | fireFlushTask =>
    simp only [applyOperation, fireFlushTask] at h
    cases hsch : s.scheduler with
    | nil => simp [hsch] at h
    | cons d rest =>
      simp only [hsch, Option.some.injEq] at h
      subst h
      intro hne
      rw [sendAll_bufferedProtocols] at hne
      rw [sendAll_scheduler]
      simp only at hne
      simp [hne]

/-- C19: in every state reached from the initial state (empty registry, no
armed task) by a sequence of `addProtocolToAutosend`,
`removeProtocolFromAutosend` and firings of an armed flush task, a non-empty
registry comes with at least one armed flush task. -/
theorem nonempty_registry_has_armed_task (currentBuffer : Protocol_ptr → OutputMessage_ptr)
    (ops : List Operation) (s : Pool) (h : run (initialPool currentBuffer) ops = some s)
    (hne : s.bufferedProtocols ≠ []) : s.scheduler ≠ [] :=
  run_preserves (fun t => t.bufferedProtocols ≠ [] → t.scheduler ≠ [])
    applyOperation_keeps_armed ops (initialPool currentBuffer) s
    (fun h0 => absurd rfl h0) h hne

/-- C19, on a concrete run: after connection 1 registers, the task fires,
connection 2 registers and connection 1 unregisters, the registry holds
connection 2 and a flush task is armed. -/
theorem nonempty_registry_has_armed_task_witness :
    run (initialPool scenarioPool.currentBuffer) cycleRun = some cycleState ∧
    cycleState.bufferedProtocols ≠ [] ∧
    cycleState.scheduler ≠ [] :=
  ⟨rfl, by decide,
   nonempty_registry_has_armed_task scenarioPool.currentBuffer cycleRun cycleState rfl
     (by decide)⟩

/-- Overwriting the first entry equal to `c` with the last entry of a list
that ends in `c`, and dropping the last slot, gives the list without its last
entry. -/
theorem set_indexOf_getLast_dropLast (l r : List Protocol_ptr) (c : Protocol_ptr)
    (hne : l ≠ []) (hl : l = r ++ [c]) :
    (l.set (l.indexOf c) (l.getLast hne)).dropLast = r := by
  subst hl
  have hmem : c ∈ r ++ [c] := by simp
  have hlt : (r ++ [c]).indexOf c < (r ++ [c]).length := List.indexOf_lt_length.mpr hmem
  have hlast : (r ++ [c]).getLast hne = c := List.getLast_concat r
  have hset : (r ++ [c]).set ((r ++ [c]).indexOf c) c = r ++ [c] := by
    apply List.ext_getElem?
    intro j
    rw [List.getElem?_set]
    split
    · next hj =>
      subst hj
      rw [List.getElem?_eq_getElem hlt, List.getElem_indexOf hlt]
    · rfl
  rw [hlast, hset, List.dropLast_concat]

/-- C20: `addProtocolToAutosend(c)` followed by `removeProtocolFromAutosend(c)`
leaves the registry as it was, entry for entry and in the same order, whether
or not `c` already occurs in it; the removal disarms nothing: the armed tasks
are those left by the registration, one more than before (delay 10 ms) when
the registry was empty and the same as before when it was not. -/
theorem add_then_remove_restores_registry (s : Pool) (c : Protocol_ptr) :
    (removeProtocolFromAutosend (addProtocolToAutosend s c) c).bufferedProtocols =
      s.bufferedProtocols ∧
    (removeProtocolFromAutosend (addProtocolToAutosend s c) c).scheduler =
      (addProtocolToAutosend s c).scheduler ∧
    (removeProtocolFromAutosend (addProtocolToAutosend s c) c).scheduler =
      (if s.bufferedProtocols = [] then s.scheduler ++ [10] else s.scheduler) := by
  have hmem : c ∈ (addProtocolToAutosend s c).bufferedProtocols := by
    rw [addProtocolToAutosend_bufferedProtocols]
    simp
  refine ⟨?_, removeProtocolFromAutosend_scheduler _ _, ?_⟩
  · rw [removeProtocolFromAutosend_bufferedProtocols _ _ hmem]
    exact set_indexOf_getLast_dropLast _ _ c _ (addProtocolToAutosend_bufferedProtocols s c)
  · rw [removeProtocolFromAutosend_scheduler, addProtocolToAutosend_scheduler]
    rfl

/-! ## Properties of the allocator type -/

/-- C16: all instances of `OutputMessageAllocator` are equivalent: for every
two instances `a == b` is true and `a != b` is false, so each comparison is
the negation of the other. -/
theorem allocator_instances_equivalent (a b : OutputMessageAllocator) :
    OutputMessageAllocator.operatorEq a b = true ∧
    OutputMessageAllocator.operatorNe a b = false ∧
    OutputMessageAllocator.operatorNe a b = !OutputMessageAllocator.operatorEq a b ∧
    a = b :=
  ⟨rfl, rfl, rfl, rfl⟩

/-- C18: `rebind<U>::other` is `OutputMessageAllocator` itself when `U` is the
message type, and for every other `U` it is the generic pooled allocator for
`U` with the capacity 2048 that bounds the message free list. -/
theorem rebind_rule (U : ElementType) :
    rebind ElementType.OutputMessage = AllocatorType.OutputMessageAllocator ∧
    (rebind U = AllocatorType.OutputMessageAllocator ↔ U = ElementType.OutputMessage) ∧
    (rebind U = AllocatorType.LockfreePoolingAllocator U 2048 ↔
      U ≠ ElementType.OutputMessage) ∧
    OUTPUTMESSAGE_FREE_LIST_CAPACITY = 2048 := by
  refine ⟨rfl, ?_, ?_, rfl⟩
  · by_cases hU : U = ElementType.OutputMessage
    · subst hU
      simp [rebind, is_same, conditional]
    · simp [rebind, is_same, conditional, hU]
  · by_cases hU : U = ElementType.OutputMessage
    · subst hU
      simp [rebind, is_same, conditional]
    · simp [rebind, is_same, conditional, hU, OUTPUTMESSAGE_FREE_LIST_CAPACITY]

/-- Both allocator types serve a request for one object alike: from the top
of the free list, else from the heap, and with `bad_alloc` when the list is
empty and the heap exhausted. -/
theorem AllocatorType.allocate_one (sizeOf : ElementType → Nat) (heap : Option Block)
    (s : AllocatorState) (U : ElementType) :
    AllocatorType.allocate sizeOf heap s 1 (rebind U) =
      match s.freeList, heap with
      | top :: rest, _ => (Except.ok top, { freeList := rest, heapCalls := s.heapCalls })
      | [], some heapBlock =>
        (Except.ok heapBlock,
          { freeList := [],
            heapCalls := s.heapCalls ++ [HeapCall.operatorNew (sizeOf U) heapBlock] })
      | [], none => (Except.error Exception.bad_alloc, s) := by
  by_cases hU : U = ElementType.OutputMessage
  · subst hU
    cases hfl : s.freeList <;> cases heap <;>
      simp [rebind, is_same, conditional, AllocatorType.allocate, OutputMessage.allocate,
        FreeList.pop, hfl]
  · cases hfl : s.freeList <;> cases heap <;>
      simp [rebind, is_same, conditional, AllocatorType.allocate,
        LockfreePoolingAllocator.allocate, FreeList.pop, hfl, hU]

/-- C15, as stated, fails when the heap is exhausted: with an empty free list
the allocator of `getOutputMessage` reaches `operator new`, whose
`std::bad_alloc` escapes, and no handle is returned. -/
theorem getOutputMessage_throws_when_heap_exhausted :
    (getOutputMessage (ElementType.other 0) (fun _ => 64) none
      { freeList := [], heapCalls := [] }).handle = Except.error Exception.bad_alloc :=
  rfl

/-- C15, amended: `getOutputMessage` gives its allocator a count of exactly
one, so the count test never fails. It returns a handle to a constructed
message with one owner whenever the free list is non-empty (the block is the
former top, the heap is not called) or the heap hands out a block (one call of
`operator new`); it fails, by the `bad_alloc` of `operator new`, exactly when
the free list is empty and the heap is exhausted, and then changes nothing. -/
theorem getOutputMessage_requests_one (controlBlock : ElementType)
    (sizeOf : ElementType → Nat) (heap : Option Block) (s : AllocatorState) :
    (getOutputMessage controlBlock sizeOf heap s).requested = [1] ∧
    ((getOutputMessage controlBlock sizeOf heap s).handle = Except.error Exception.bad_alloc ↔
      s.freeList = [] ∧ heap = none) ∧
    ((getOutputMessage controlBlock sizeOf heap s).handle = Except.error Exception.bad_alloc →
      (getOutputMessage controlBlock sizeOf heap s).state = s) ∧
    (∀ (top : Block) (rest : FreeList), s.freeList = top :: rest →
      (getOutputMessage controlBlock sizeOf heap s).handle =
        Except.ok { block := top, constructed := true, owners := 1 } ∧
      (getOutputMessage controlBlock sizeOf heap s).state =
        { freeList := rest, heapCalls := s.heapCalls }) ∧
    (∀ heapBlock : Block, s.freeList = [] → heap = some heapBlock →
      (getOutputMessage controlBlock sizeOf heap s).handle =
        Except.ok { block := heapBlock, constructed := true, owners := 1 } ∧
      (getOutputMessage controlBlock sizeOf heap s).state =
        { freeList := [],
          heapCalls := s.heapCalls ++
            [HeapCall.operatorNew (sizeOf controlBlock) heapBlock] }) := by
  unfold getOutputMessage allocate_shared AllocatorType.allocateCounted
  rw [AllocatorType.allocate_one]
  cases hfl : s.freeList with
  | nil =>
    cases heap with
    | none => simp
    | some heapBlock => simp
  | cons top rest =>
    cases heap with
    | none => simp
    | some heapBlock => simp

/-! ## Live blocks and the free list -/

theorem Ledger.initial_sound : Ledger.Sound Ledger.initial := by
  simp [Ledger.Sound, Ledger.initial, initialAllocator]

/-- An `allocate(1)` that finds the free list empty and the heap exhausted
throws and leaves the books as they are. -/
theorem Ledger.step_allocate_exhausted (sizeofOutputMessage : Nat) (t : Ledger)
    (hfl : t.state.freeList = []) :
    t.step sizeofOutputMessage (AllocatorCall.allocate 1 none) = t := by
  simp only [Ledger.step, allocate_one_nil_exhausted _ _ hfl]

/-- A disciplined `allocate(1)` that the free list or the heap serves keeps the
books sound. -/
theorem Ledger.step_allocate_sound (sizeofOutputMessage : Nat) (t : Ledger)
    (heapBlock : Block) (ht : t.Sound)
    (hd : t.state.freeList = [] → heapBlock ≠ nullptr ∧ heapBlock ∉ t.live) :
    (t.step sizeofOutputMessage (AllocatorCall.allocate 1 (some heapBlock))).Sound := by
  obtain ⟨hlive, hfree, hdisj, hnl, hnf, hcount, hlen, hdealloc⟩ := ht
  cases hfl : t.state.freeList with
  | nil =>
    obtain ⟨hb0, hbl⟩ := hd hfl
    simp only [Ledger.step, allocate_one_nil _ _ _ hfl]
    refine ⟨List.nodup_cons.mpr ⟨hbl, hlive⟩, List.nodup_nil, ?_, ?_, ?_, ?_, ?_, ?_⟩
    · intro b _
      simp
    · intro h
      rcases List.mem_cons.mp h with h | h
      · exact hb0 h.symm
      · exact hnl h
    · simp
    · intro b
      have := hcount b
      simp only [List.count_cons]
      omega
    · simp only [List.length_cons]
      omega
    · intro b hb
      rcases hdealloc b hb with h | h | h
      · rw [hfl] at h
        simp at h
      · right; left
        exact List.mem_append_left _ h
      · right; right
        exact List.mem_cons_of_mem _ h
  | cons top rest =>
    rw [hfl] at hfree hnf
    have htop : top ∉ t.live := fun h => hdisj top h (by rw [hfl]; exact List.mem_cons_self _ _)
    simp only [Ledger.step, allocate_one_cons _ _ _ _ _ hfl]
    refine ⟨List.nodup_cons.mpr ⟨htop, hlive⟩, (List.nodup_cons.mp hfree).2, ?_, ?_, ?_, ?_,
      ?_, ?_⟩
    · intro b hb
      rcases List.mem_cons.mp hb with h | h
      · rw [h]
        exact (List.nodup_cons.mp hfree).1
      · intro hr
        exact hdisj b h (by rw [hfl]; exact List.mem_cons_of_mem _ hr)
    · intro h
      rcases List.mem_cons.mp h with h | h
      · exact hnf (by rw [h]; exact List.mem_cons_self _ _)
      · exact hnl h
    · intro h
      exact hnf (List.mem_cons_of_mem _ h)
    · intro b
      have := hcount b
      simp only [List.count_cons]
      omega
    · simp only [List.length_cons]
      omega
    · intro b hb
      rcases hdealloc b hb with h | h | h
      · rw [hfl] at h
        rcases List.mem_cons.mp h with h | h
        · right; right
          rw [h]
          exact List.mem_cons_self _ _
        · left
          exact h
      · right; left
        exact h
      · right; right
        exact List.mem_cons_of_mem _ h

/-- On a non-empty free list `allocate(1)` does not reach the heap. -/
theorem Ledger.step_allocate_cons (sizeofOutputMessage : Nat) (t : Ledger)
    (heap heap2 : Option Block) (hfl : t.state.freeList ≠ []) :
    t.step sizeofOutputMessage (AllocatorCall.allocate 1 heap) =
      t.step sizeofOutputMessage (AllocatorCall.allocate 1 heap2) := by
  cases h : t.state.freeList with
  | nil => exact absurd h hfl
  | cons top rest =>
    simp only [Ledger.step, allocate_one_cons _ _ _ _ _ h]

/-- A `deallocate(p, 1)` of a live block keeps the books sound. -/
theorem Ledger.step_deallocate_sound (sizeofOutputMessage : Nat) (t : Ledger) (p : Block)
    (ht : t.Sound) (hp : p ∈ t.live) :
    (t.step sizeofOutputMessage (AllocatorCall.deallocate p 1)).Sound := by
  obtain ⟨hlive, hfree, hdisj, hnl, hnf, hcount, hlen, hdealloc⟩ := ht
  have hp0 : p ≠ nullptr := fun h => hnl (h ▸ hp)
  have hpf : p ∉ t.state.freeList := hdisj p hp
  have hpos : 0 < t.live.count p := List.count_pos_iff.mpr hp
  have hlpos : 0 < t.live.length := List.length_pos_of_mem hp
  have hcnt : ∀ b : Block,
      (t.live.erase p).count b + (p :: t.deallocated).count b = t.allocated.count b := by
    intro b
    have := hcount b
    by_cases hbp : b = p
    · subst hbp
      rw [List.count_erase_self, List.count_cons_self]
      omega
    · rw [List.count_erase_of_ne hbp, List.count_cons_of_ne hbp]
      exact this
  have hlen2 : (t.live.erase p).length + (p :: t.deallocated).length = t.allocated.length := by
    rw [List.length_erase_of_mem hp, List.length_cons]
    omega
  have hnl2 : nullptr ∉ t.live.erase p := fun h => hnl (List.mem_of_mem_erase h)
  simp only [Ledger.step, deallocate_one_eq _ _ hp0]
  by_cases hcap : t.state.freeList.length < 2048
  · rw [if_pos hcap]
    refine ⟨hlive.erase p, List.nodup_cons.mpr ⟨hpf, hfree⟩, ?_, hnl2, ?_, hcnt, hlen2, ?_⟩
    · intro b hb hbf
      have hb2 := (List.Nodup.mem_erase_iff hlive).mp hb
      rcases List.mem_cons.mp hbf with h | h
      · exact hb2.1 h
      · exact hdisj b hb2.2 h
    · intro h
      rcases List.mem_cons.mp h with h | h
      · exact hp0 h.symm
      · exact hnf h
    · intro b hb
      by_cases hbp : b = p
      · left
        rw [hbp]
        exact List.mem_cons_self _ _
      · rcases List.mem_cons.mp hb with h | h
        · exact absurd h hbp
        · rcases hdealloc b h with h | h | h
          · left
            exact List.mem_cons_of_mem _ h
          · right; left
            exact h
          · right; right
            exact (List.Nodup.mem_erase_iff hlive).mpr ⟨hbp, h⟩
  · rw [if_neg hcap]
    refine ⟨hlive.erase p, hfree, ?_, hnl2, hnf, hcnt, hlen2, ?_⟩
    · intro b hb
      exact hdisj b (List.mem_of_mem_erase hb)
    · intro b hb
      by_cases hbp : b = p
      · right; left
        rw [hbp]
        simp
      · rcases List.mem_cons.mp hb with h | h
        · exact absurd h hbp
        · rcases hdealloc b h with h | h | h
          · left
            exact h
          · right; left
            exact List.mem_append_left _ h
          · right; right
            exact (List.Nodup.mem_erase_iff hlive).mpr ⟨hbp, h⟩

/-- A disciplined call keeps the books sound. -/
theorem Ledger.step_sound (sizeofOutputMessage : Nat) (t : Ledger) (call : AllocatorCall)
    (ht : t.Sound) (hd : disciplinedCall t call = true) :
    (t.step sizeofOutputMessage call).Sound := by
  cases call with
  | allocate n heap =>
    cases heap with
    | none =>
      simp [disciplinedCall] at hd
      subst hd
      by_cases hfl : t.state.freeList = []
      · rw [Ledger.step_allocate_exhausted _ _ hfl]
        exact ht
      · rw [Ledger.step_allocate_cons _ _ none (some 1) hfl]
        exact Ledger.step_allocate_sound _ _ _ ht (fun h => absurd h hfl)
    | some heapBlock =>
      simp [disciplinedCall] at hd
      obtain ⟨hn, hheap⟩ := hd
      subst hn
      apply Ledger.step_allocate_sound _ _ _ ht
      intro hfl
      rcases hheap with h | h
      · exact absurd hfl h
      · exact h
  | deallocate p n =>
    simp [disciplinedCall] at hd
    obtain ⟨hn, hp⟩ := hd
    subst hn
    exact Ledger.step_deallocate_sound _ _ _ ht hp

/-- A disciplined run keeps the books sound. -/
theorem Ledger.run_sound (sizeofOutputMessage : Nat) (calls : List AllocatorCall) :
    ∀ t : Ledger, t.Sound → disciplinedRun sizeofOutputMessage t calls = true →
      (Ledger.run sizeofOutputMessage t calls).Sound := by
  induction calls with
  | nil => intro t ht _; exact ht
  | cons call rest ih =>
    intro t ht hd
    simp only [disciplinedRun, Bool.and_eq_true] at hd
    exact ih _ (Ledger.step_sound _ _ _ ht hd.1) hd.2

/-- C12: in every run of `allocate(1)` and `deallocate(p, 1)` calls from the
empty free list in which each `deallocate` is given a live block and the heap
hands out only non-null blocks that are not live, the live blocks are exactly
the blocks allocated minus the blocks deallocated (block by block, and in
number), no block is live twice, the free list has no duplicate entry and no
live block, and every deallocated block is on the free list, was released to
the heap, or is live again. -/
theorem live_blocks_and_free_list_disjoint (sizeofOutputMessage : Nat)
    (calls : List AllocatorCall)
    (h : disciplinedRun sizeofOutputMessage Ledger.initial calls = true) :
    (∀ b : Block,
      (Ledger.run sizeofOutputMessage Ledger.initial calls).live.count b =
        (Ledger.run sizeofOutputMessage Ledger.initial calls).allocated.count b -
          (Ledger.run sizeofOutputMessage Ledger.initial calls).deallocated.count b) ∧
    (Ledger.run sizeofOutputMessage Ledger.initial calls).live.length =
      (Ledger.run sizeofOutputMessage Ledger.initial calls).allocated.length -
        (Ledger.run sizeofOutputMessage Ledger.initial calls).deallocated.length ∧
    (Ledger.run sizeofOutputMessage Ledger.initial calls).live.Nodup ∧
    (Ledger.run sizeofOutputMessage Ledger.initial calls).state.freeList.Nodup ∧
    (∀ b ∈ (Ledger.run sizeofOutputMessage Ledger.initial calls).state.freeList,
      b ∉ (Ledger.run sizeofOutputMessage Ledger.initial calls).live) ∧
    (∀ b ∈ (Ledger.run sizeofOutputMessage Ledger.initial calls).deallocated,
      b ∈ (Ledger.run sizeofOutputMessage Ledger.initial calls).state.freeList ∨
      HeapCall.operatorDelete b ∈
        (Ledger.run sizeofOutputMessage Ledger.initial calls).state.heapCalls ∨
      b ∈ (Ledger.run sizeofOutputMessage Ledger.initial calls).live) := by
  obtain ⟨hlive, hfree, hdisj, _, _, hcount, hlen, hdealloc⟩ :=
    Ledger.run_sound sizeofOutputMessage calls Ledger.initial Ledger.initial_sound h
  refine ⟨?_, ?_, hlive, hfree, ?_, hdealloc⟩
  · intro b
    have := hcount b
    omega
  · omega
  · intro b hb hl
    exact hdisj b hl hb

/-- C12, on a concrete run: blocks 5 and 6 come from the heap, 5 is freed and
handed out again, then both are freed; the run is disciplined, no block is
live at the end and the free list holds 5 and 6. -/
theorem live_blocks_and_free_list_disjoint_witness :
    disciplinedRun 64 Ledger.initial ledgerRun = true ∧
    (Ledger.run 64 Ledger.initial ledgerRun).live = [] ∧
    (Ledger.run 64 Ledger.initial ledgerRun).state.freeList = [5, 6] ∧
    (Ledger.run 64 Ledger.initial ledgerRun).state.freeList.Nodup :=
  ⟨by decide, by decide, by decide,
   (live_blocks_and_free_list_disjoint 64 ledgerRun (by decide)).2.2.2.1⟩

/-! ## Reuse order -/

theorem ReuseHistory.run_append (sizeofOutputMessage : Nat) (a b : List AllocatorCall) :
    ∀ t : ReuseHistory,
      ReuseHistory.run sizeofOutputMessage t (a ++ b) =
        ReuseHistory.run sizeofOutputMessage (ReuseHistory.run sizeofOutputMessage t a) b := by
  induction a with
  | nil => intro t; rfl
  | cons call rest ih => intro t; exact ih _

theorem ReuseHistory.run_singleton (sizeofOutputMessage : Nat) (t : ReuseHistory)
    (call : AllocatorCall) :
    ReuseHistory.run sizeofOutputMessage t [call] = t.step sizeofOutputMessage call :=
  rfl

/-- The histories after `deallocate(p, 1)` of a non-null block. -/
theorem ReuseHistory.step_deallocate_one (sizeofOutputMessage : Nat) (t : ReuseHistory)
    (p : Block) (hp : p ≠ nullptr) :
    (t.step sizeofOutputMessage (AllocatorCall.deallocate p 1)).state =
      deallocate t.state p 1 ∧
    (t.step sizeofOutputMessage (AllocatorCall.deallocate p 1)).freed = p :: t.freed ∧
    (t.step sizeofOutputMessage (AllocatorCall.deallocate p 1)).kept =
      if (deallocate t.state p 1).heapCalls = t.state.heapCalls then p :: t.kept
      else t.kept := by
  simp [ReuseHistory.step, hp]

/-- The blocks kept and not handed out again are the free list, top first:
one call preserves it. -/
theorem ReuseHistory.step_kept (sizeofOutputMessage : Nat) (t : ReuseHistory)
    (call : AllocatorCall) (h : t.kept = t.state.freeList) :
    (t.step sizeofOutputMessage call).kept =
      (t.step sizeofOutputMessage call).state.freeList := by
  cases call with
  | allocate n heap =>
    by_cases hn : n = 1
    · subst hn
      cases hfl : t.state.freeList with
      | nil =>
        cases heap with
        | none =>
          simp only [ReuseHistory.step, allocate_one_nil_exhausted _ _ hfl]
          rw [h, hfl]
        | some heapBlock =>
          simp only [ReuseHistory.step, allocate_one_nil _ _ _ hfl]
          rw [if_neg (by simp), h, hfl]
      | cons top rest =>
        simp only [ReuseHistory.step, allocate_one_cons _ _ _ _ _ hfl]
        rw [if_pos trivial, h, hfl, List.erase_cons_head]
    · simp only [ReuseHistory.step, allocate_wrong_count _ _ _ _ hn]
      exact h
  | deallocate p n =>
    by_cases hc : n = 1 ∧ p ≠ nullptr
    · obtain ⟨hn, hp⟩ := hc
      subst hn
      obtain ⟨hst, _, hk⟩ := ReuseHistory.step_deallocate_one sizeofOutputMessage t p hp
      rw [hk, hst, deallocate_one_eq _ _ hp]
      by_cases hcap : t.state.freeList.length < 2048
      · simp [hcap, h]
      · simp [hcap, h]
    · simp only [ReuseHistory.step, if_neg hc, deallocate_noop _ _ _ hc]
      exact h

theorem ReuseHistory.run_kept (sizeofOutputMessage : Nat) (calls : List AllocatorCall) :
    ∀ t : ReuseHistory, t.kept = t.state.freeList →
      (ReuseHistory.run sizeofOutputMessage t calls).kept =
        (ReuseHistory.run sizeofOutputMessage t calls).state.freeList := by
  induction calls with
  | nil => intro t h; exact h
  | cons call rest ih => intro t h; exact ih _ (ReuseHistory.step_kept _ _ _ h)

/-- Freeing non-null blocks one after the other while the free list has room
stacks them on the free list, the last one freed on top. -/
theorem ReuseHistory.run_deallocateEach (sizeofOutputMessage : Nat) (blocks : List Block) :
    ∀ t : ReuseHistory, (∀ b ∈ blocks, b ≠ nullptr) →
      t.state.freeList.length + blocks.length ≤ 2048 →
      (ReuseHistory.run sizeofOutputMessage t (deallocateEach blocks)).state =
        { freeList := blocks.reverse ++ t.state.freeList, heapCalls := t.state.heapCalls } ∧
      (ReuseHistory.run sizeofOutputMessage t (deallocateEach blocks)).freed =
        blocks.reverse ++ t.freed := by
  induction blocks with
  | nil => intro t _ _; exact ⟨rfl, rfl⟩
  | cons b rest ih =>
    intro t hnn hlen
    have hb : b ≠ nullptr := hnn b (List.mem_cons_self _ _)
    simp only [List.length_cons] at hlen
    obtain ⟨hst, hfr, _⟩ := ReuseHistory.step_deallocate_one sizeofOutputMessage t b hb
    rw [deallocate_one_eq _ _ hb, if_pos (by omega)] at hst
    have ih2 := ih (t.step sizeofOutputMessage (AllocatorCall.deallocate b 1))
      (fun c hc => hnn c (List.mem_cons_of_mem _ hc))
      (by rw [hst]; simp only [List.length_cons]; omega)
    rw [hst, hfr] at ih2
    simp only [deallocateEach, List.map_cons, ReuseHistory.run, List.reverse_cons,
      List.append_assoc, List.singleton_append]
    exact ih2

/-- The state the run that overflows the free list ends in: the free list
holds blocks 1 to 2048, block 1 on top, block 3000 went to the heap, and
block 3000 is the latest block freed. -/
theorem overflowRun_result :
    (ReuseHistory.run 64 ReuseHistory.initial overflowRun).state =
      { freeList := List.range' 1 2048, heapCalls := [HeapCall.operatorDelete 3000] } ∧
    (ReuseHistory.run 64 ReuseHistory.initial overflowRun).freed =
      3000 :: List.range' 1 2048 := by
  have h0 : (3000 : Block) ≠ nullptr := by decide
  have hrun := ReuseHistory.run_deallocateEach 64 (List.range' 1 2048).reverse
    ReuseHistory.initial
    (by
      intro b hb
      rw [List.mem_reverse, List.mem_range'_1] at hb
      intro h
      rw [h] at hb
      exact absurd hb.1 (by decide))
    (by simp [ReuseHistory.initial, initialAllocator])
  rw [List.reverse_reverse] at hrun
  have hst : (ReuseHistory.run 64 ReuseHistory.initial
      (deallocateEach (List.range' 1 2048).reverse)).state =
      { freeList := List.range' 1 2048, heapCalls := [] } := by
    rw [hrun.1]
    simp only [ReuseHistory.initial, initialAllocator, List.append_nil]
  have hfr : (ReuseHistory.run 64 ReuseHistory.initial
      (deallocateEach (List.range' 1 2048).reverse)).freed = List.range' 1 2048 := by
    rw [hrun.2]
    simp only [ReuseHistory.initial, List.append_nil]
  obtain ⟨hst2, hfr2, _⟩ := ReuseHistory.step_deallocate_one 64
    (ReuseHistory.run 64 ReuseHistory.initial (deallocateEach (List.range' 1 2048).reverse))
    3000 h0
  unfold overflowRun
  rw [ReuseHistory.run_append, ReuseHistory.run_singleton, hst2, hfr2, hfr,
    deallocate_one_eq _ _ h0, hst]
  have hfull : ¬ (List.range' 1 2048).length < 2048 := by
    rw [List.length_range']
    exact Nat.lt_irrefl _
  exact ⟨by rw [if_neg hfull]; rfl, rfl⟩

/-- C13, as stated, fails on a full free list: after blocks 2048 down to 1 are
freed, block 3000 is freed; block 3000 is then the most recently freed block
and has not been reused, the free list is not empty, and `allocate(1)` returns
block 1. -/
theorem allocate_skips_latest_freed_block_when_full :
    (ReuseHistory.run 64 ReuseHistory.initial overflowRun).state.freeList ≠ [] ∧
    (ReuseHistory.run 64 ReuseHistory.initial overflowRun).freed.head? = some 3000 ∧
    (allocate 64 none (ReuseHistory.run 64 ReuseHistory.initial overflowRun).state 1).1 =
      Except.ok 1 := by
  obtain ⟨hst, hfr⟩ := overflowRun_result
  have hfl : (ReuseHistory.run 64 ReuseHistory.initial overflowRun).state.freeList =
      1 :: List.range' 2 2047 := by
    rw [hst]
    exact List.range'_succ 1 2047 1
  refine ⟨?_, ?_, ?_⟩
  · rw [hfl]
    exact List.cons_ne_nil _ _
  · rw [hfr]
    rfl
  · rw [allocate_one_cons _ _ _ _ _ hfl]

/-- C13, amended: for a free list holding fewer than 2048 entries and a
non-null block `p`, `deallocate(p, 1)` followed at once by `allocate(1)`
returns `p` and leaves the free list, and the heap, as before the
`deallocate`. More generally, in every run from the empty free list the
blocks that were freed, kept by the free list (not released to the heap) and
not handed out again are the free list itself, latest first, so `allocate(1)`
on a non-empty list returns the latest of them without calling the heap. -/
theorem lifo_reuse_of_kept_blocks (sizeofOutputMessage : Nat) (heap : Option Block)
    (s : AllocatorState) (p : Block) (calls : List AllocatorCall)
    (hlen : s.freeList.length < 2048) (hp : p ≠ nullptr) :
    allocate sizeofOutputMessage heap (deallocate s p 1) 1 = (Except.ok p, s) ∧
    (ReuseHistory.run sizeofOutputMessage ReuseHistory.initial calls).kept =
      (ReuseHistory.run sizeofOutputMessage ReuseHistory.initial calls).state.freeList ∧
    (∀ (top : Block) (rest : FreeList),
      (ReuseHistory.run sizeofOutputMessage ReuseHistory.initial calls).state.freeList =
        top :: rest →
      (ReuseHistory.run sizeofOutputMessage ReuseHistory.initial calls).kept.head? =
        some top ∧
      allocate sizeofOutputMessage heap
        (ReuseHistory.run sizeofOutputMessage ReuseHistory.initial calls).state 1 =
        (Except.ok top,
          { freeList := rest,
            heapCalls :=
              (ReuseHistory.run sizeofOutputMessage ReuseHistory.initial calls).state.heapCalls
          })) := by
  have hkept := ReuseHistory.run_kept sizeofOutputMessage calls ReuseHistory.initial rfl
  refine ⟨?_, hkept, ?_⟩
  · rw [deallocate_one_eq _ _ hp, if_pos hlen]
    exact allocate_one_cons _ _ _ _ _ rfl
  · intro top rest hfl
    refine ⟨?_, allocate_one_cons _ _ _ _ _ hfl⟩
    rw [hkept, hfl]
    rfl

/-- C13 amended, at concrete inputs: block 9 freed on the free list holding
block 7 is the block the next `allocate(1)` returns, and the free list holds
block 7 again. -/
theorem lifo_reuse_of_kept_blocks_witness :
    ([7] : FreeList).length < 2048 ∧ (9 : Block) ≠ nullptr ∧
    allocate 64 none (deallocate { freeList := [7], heapCalls := [] } 9 1) 1 =
      (Except.ok 9, { freeList := [7], heapCalls := [] }) :=
  ⟨by decide, by decide,
   (lifo_reuse_of_kept_blocks 64 none { freeList := [7], heapCalls := [] } 9 ledgerRun
     (by decide) (by decide)).1⟩

end OutputMessage
